import Mathlib

/-!
Verification of the matching/grouping core of `cmip6_clt_extraction.py`
(repository `padavatan/cloud_fraction`).

The script queries the ESGF catalog for two experiments (`ssp585`, then
`historical`), groups the returned records, intersects the groupings, and
emits per-model download scripts plus a summary table.  This file gives a
shallow embedding of `find_matching_variants`, `generate_wget_scripts` and
`main`, treating the catalog and the filesystem as explicit inputs/outputs:

  * a catalog search result is a `RawRecord`, carrying the JSON metadata
    fields (each either absent or a list of strings, as ESGF returns them)
    and the `dataset_id`;
  * the file-listing side effects of `generate_wget_scripts` are an oracle
    `resolve : String → Except String (List FileEntry)` standing for
    `conn.search(dataset_id=...)[0].file_context().search()` (the whole
    fallible part of the per-experiment `try` block), and the written
    scripts are returned as structured `ScriptFile` values instead of
    being written to disk;
  * console printing is dropped; `main`'s observable outcome is the
    `RunOutcome` value.

Where Python iterates a `set` in unspecified order (the `common_keys`
intersection, `ssp_models_list`), the embedding fixes a deterministic
refinement (insertion order of the historical dict / dict value order);
the theorems below do not depend on that choice.
-/

namespace Cmip6

/-- One raw search result `ds`: the metadata fields used by the script,
as they sit in `ds.json` (each field is either absent from the JSON or a
list of strings), plus the `ds.dataset_id` attribute. -/
structure RawRecord where
  source_id : Option (List String)
  institution_id : Option (List String)
  variant_label : Option (List String)
  grid_label : Option (List String)
  dataset_id : String
deriving DecidableEq

/-- `ds.json.get(key, [''])[0]` (lines 74-77 and 134-142): an absent key
defaults to `['']`, whose first element is `''`; a present but empty list
makes `[0]` raise `IndexError`, which the surrounding `except` catches —
modelled as `none`. -/
def getField : Option (List String) → Option String
  | none => some ""
  | some [] => none
  | some (x :: _) => some x

/-- The per-record info dict stored in `ssp585_models` / `historical_models`
(lines 93-99 and 158-164): keys `variant`, `grid`, `dataset_id`, `model`,
`institute`. -/
structure ModelInfo where
  variant : String
  grid : String
  dataset_id : String
  model : String
  institute : String
deriving DecidableEq

/-- Extraction of the four metadata fields of one record (lines 74-77,
134-142).  Any extraction raising (`getField _ = none`) means the whole
record is skipped by the `except` handler, hence `none`. -/
def parseRecord (ds : RawRecord) : Option ModelInfo :=
  match getField ds.source_id, getField ds.institution_id,
        getField ds.variant_label, getField ds.grid_label with
  | some source_id, some institute, some variant, some grid =>
      some { variant := variant, grid := grid, dataset_id := ds.dataset_id,
             model := source_id, institute := institute }
  | _, _, _, _ => none

/-- `model_variant_key = f"{source_id}_{variant}_{grid}"` (lines 90, 155). -/
def modelVariantKey (source_id variant grid : String) : String :=
  source_id ++ "_" ++ variant ++ "_" ++ grid

/-- The key of a stored info dict. -/
def mkey (i : ModelInfo) : String :=
  modelVariantKey i.model i.variant i.grid

/-- Python dict assignment `d[key] = v`: overwrite in place when the key is
present, otherwise append (insertion order preserved). -/
def dictSet : List (String × ModelInfo) → String → ModelInfo → List (String × ModelInfo)
  | [], k, v => [(k, v)]
  | p :: rest, k, v =>
      if p.1 == k then (k, v) :: rest else p :: dictSet rest k v

/-- Python dict lookup `d[key]` / `key in d`. -/
def dictGet? (d : List (String × ModelInfo)) (k : String) : Option ModelInfo :=
  (d.find? fun p => p.1 == k).map Prod.snd

/-- The mutable state of one processing loop: the `seen_models` set and the
accumulating models dict (`ssp585_models` or `historical_models`). -/
structure PassState where
  seen : List String
  models : List (String × ModelInfo)
deriving DecidableEq

/-- The empty initial state (`seen_models = set()`, `{}`). -/
def initState : PassState := { seen := [], models := [] }

/-- One iteration of the ssp585 loop (lines 71-102): extract the four
fields (any failure skips the record), skip the record if its model was
already seen, otherwise mark the model seen and store the info dict under
`model_variant_key`. -/
def processSspRecord (st : PassState) (ds : RawRecord) : PassState :=
  match parseRecord ds with
  | none => st
  | some info =>
      if info.model ∈ st.seen then st
      else { seen := info.model :: st.seen,
             models := dictSet st.models (modelVariantKey info.model info.variant info.grid) info }

/-- One iteration of the historical loop (lines 131-167): extract
`source_id` first; skip the record when its model is not among the ssp585
models; then extract the remaining fields and proceed as in the ssp585
loop.  Any extraction failure skips the record via the `except` handler. -/
def processHistRecord (ssp_models_list : List String) (st : PassState) (ds : RawRecord) :
    PassState :=
  match getField ds.source_id with
  | none => st
  | some source_id =>
      if source_id ∈ ssp_models_list then
        match parseRecord ds with
        | none => st
        | some info =>
            if info.model ∈ st.seen then st
            else { seen := info.model :: st.seen,
                   models := dictSet st.models
                     (modelVariantKey info.model info.variant info.grid) info }
      else st

/-- The full ssp585 pass over the search results (lines 69-103). -/
def sspPass (ssp_results : List RawRecord) : PassState :=
  ssp_results.foldl processSspRecord initState

/-- `ssp585_models` after the ssp585 pass. -/
def sspModels (ssp_results : List RawRecord) : List (String × ModelInfo) :=
  (sspPass ssp_results).models

/-- `ssp_models_list = list(set(info['model'] for info in ssp585_models.values()))`
(line 113).  The Python value is a set materialised in unspecified order and
used only for membership tests; the embedding keeps the dict value order
(duplicates cannot occur, one entry per model). -/
def sspModelsList (d : List (String × ModelInfo)) : List String :=
  d.map fun p => p.2.model

/-- The full historical pass over the search results (lines 129-168),
filtered by the ssp585 model list. -/
def histPass (ssp_models_list : List String) (hist_results : List RawRecord) : PassState :=
  hist_results.foldl (processHistRecord ssp_models_list) initState

/-- One matched model (lines 191-198): denormalized identity plus the two
dataset ids. -/
structure MatchedModel where
  model : String
  institute : String
  variant : String
  grid : String
  historical_dataset : String
  ssp585_dataset : String
deriving DecidableEq

/-- The record appended for one common key (lines 191-198): identity fields
from `hist_info`, dataset ids from both infos. -/
def mkMatched (hist_info ssp_info : ModelInfo) : MatchedModel :=
  { model := hist_info.model, institute := hist_info.institute,
    variant := hist_info.variant, grid := hist_info.grid,
    historical_dataset := hist_info.dataset_id,
    ssp585_dataset := ssp_info.dataset_id }

/-- `common_keys = set(historical_models.keys()) & set(ssp585_models.keys())`
(line 172).  Python iterates this set in unspecified order; the embedding
fixes the insertion order of the historical dict (keys are unique by
construction, so the set coincides with this list). -/
def commonKeys (hist ssp : List (String × ModelInfo)) : List String :=
  (hist.map Prod.fst).filter fun k => (dictGet? ssp k).isSome

/-- One iteration of the matched-models loop (lines 179-198): look up both
infos, skip when the model was already included, otherwise record the model
and append the matched entry. -/
def buildStep (hist ssp : List (String × ModelInfo))
    (st : List String × List MatchedModel) (key : String) :
    List String × List MatchedModel :=
  match dictGet? hist key, dictGet? ssp key with
  | some hist_info, some ssp_info =>
      if hist_info.model ∈ st.1 then st
      else (hist_info.model :: st.1, st.2 ++ [mkMatched hist_info ssp_info])
  | _, _ => st

/-- Lines 171-198: intersect the two dicts and build `matched_models`,
keeping at most one entry per model via `already_included_models`. -/
def buildMatched (hist ssp : List (String × ModelInfo)) : List MatchedModel :=
  ((commonKeys hist ssp).foldl (buildStep hist ssp) ([], [])).2

/-- `find_matching_variants` (lines 35-210), with the two search results as
explicit inputs. -/
def find_matching_variants (ssp_results hist_results : List RawRecord) : List MatchedModel :=
  let ssp585_models := sspModels ssp_results
  let ssp_models_list := sspModelsList ssp585_models
  let historical_models := (histPass ssp_models_list hist_results).models
  buildMatched historical_models ssp585_models

/-- The `(model, variant, grid)` identities of the matched models. -/
def matchedTriples (ssp_results hist_results : List RawRecord) :
    List (String × String × String) :=
  (find_matching_variants ssp_results hist_results).map fun mm =>
    (mm.model, mm.variant, mm.grid)

/-! ## Script emitter (`generate_wget_scripts`, lines 212-285) -/

/-- One entry of a dataset's file listing: `file.filename` and
`file.download_url` (a falsy/absent URL is modelled as `""`, as in
`if url:`). -/
structure FileEntry where
  filename : String
  download_url : String
deriving DecidableEq

/-- One generated wget script, as structured data instead of text: its
path, the header information (lines 250-251), the wget entries
`(url, filename)` — one per file with a non-empty download URL
(lines 253-256) — and whether `os.chmod(path, 0o755)` was applied
(line 258). -/
structure ScriptFile where
  path : String
  model : String
  variant : String
  experiment : String
  dataset_id : String
  wget_entries : List (String × String)
  executable : Bool
deriving DecidableEq

/-- Lines 253-256: one wget line per file whose `download_url` is truthy. -/
def wgetEntries (files : List FileEntry) : List (String × String) :=
  files.filterMap fun f =>
    if f.download_url = "" then none else some (f.download_url, f.filename)

/-- One summary row (lines 268-277). -/
structure SummaryRow where
  model : String
  institute : String
  variant : String
  grid : String
  historical_files : Nat
  ssp585_files : Nat
  historical_wget : String
  ssp585_wget : String
deriving DecidableEq

/-- The body of the per-experiment `try` block (lines 237-265) for one
experiment of one matched model: on successful resolution of the file
listing, record the file count, the script (written and made executable)
and its path; on any exception, record zero files, no script, no path. -/
def runExperiment (resolve : String → Except String (List FileEntry))
    (model_dir model_name variant experiment dataset_id : String) :
    Nat × Option String × List ScriptFile :=
  match resolve dataset_id with
  | Except.ok files =>
      let wget_path := model_dir ++ "/" ++ experiment ++ "_wget.sh"
      (files.length, some wget_path,
        [{ path := wget_path, model := model_name, variant := variant,
           experiment := experiment, dataset_id := dataset_id,
           wget_entries := wgetEntries files, executable := true }])
  | Except.error _ => (0, none, [])

/-- The body of the per-model loop (lines 222-277): run both experiments,
then build the summary row with `file_counts.get(exp, 0)` and
`wget_paths.get(exp, '')`. -/
def processModel (resolve : String → Except String (List FileEntry))
    (output_dir : String) (mi : MatchedModel) : List ScriptFile × SummaryRow :=
  let model_dir := output_dir ++ "/" ++ mi.model ++ "_" ++ mi.variant
  let hist := runExperiment resolve model_dir mi.model mi.variant "historical"
    mi.historical_dataset
  let ssp := runExperiment resolve model_dir mi.model mi.variant "ssp585"
    mi.ssp585_dataset
  (hist.2.2 ++ ssp.2.2,
   { model := mi.model, institute := mi.institute, variant := mi.variant,
     grid := mi.grid,
     historical_files := hist.1, ssp585_files := ssp.1,
     historical_wget := (hist.2.1).getD "", ssp585_wget := (ssp.2.1).getD "" })

/-- `generate_wget_scripts` (lines 212-285): the scripts written to disk
and the summary rows, one per matched model, in list order. -/
def generate_wget_scripts (resolve : String → Except String (List FileEntry))
    (matched_models : List MatchedModel) (output_dir : String) :
    List ScriptFile × List SummaryRow :=
  let results := matched_models.map (processModel resolve output_dir)
  ((results.map Prod.fst).flatten, results.map Prod.snd)

/-- `row['total_files'] = historical_files + ssp585_files` (line 321). -/
def totalFiles (row : SummaryRow) : Nat :=
  row.historical_files + row.ssp585_files

/-- Insertion into a list kept sorted by descending `totalFiles`. -/
def insertDesc (r : SummaryRow) : List SummaryRow → List SummaryRow
  | [] => [r]
  | x :: xs => if totalFiles x ≤ totalFiles r then r :: x :: xs else x :: insertDesc r xs

/-- `summary.sort_values('total_files', ascending=False)` (line 322):
pandas sorts descending by the total file count (tie order unspecified);
the embedding fixes an insertion sort as deterministic refinement. -/
def sortDesc : List SummaryRow → List SummaryRow
  | [] => []
  | x :: xs => insertDesc x (sortDesc xs)

/-- `summary.sort_values('total_files', ascending=False).head(5)`
(line 322). -/
def topModels (summary : List SummaryRow) : List SummaryRow :=
  (sortDesc summary).take 5

/-- The observable outcome of `main` (lines 287-329): either the graceful
"no matching models found" early return (lines 294-304, no scripts, no
summary), or a completed run with its scripts, summary and top-5 report. -/
inductive RunOutcome where
  | noMatches : RunOutcome
  | completed (scripts : List ScriptFile) (summary : List SummaryRow)
      (top : List SummaryRow) : RunOutcome
deriving DecidableEq

/-- `main` (lines 287-329), over the search results and the file-listing
oracle. -/
def runMain (resolve : String → Except String (List FileEntry))
    (ssp_results hist_results : List RawRecord) : RunOutcome :=
  let matched := find_matching_variants ssp_results hist_results
  if matched = [] then RunOutcome.noMatches
  else
    let result := generate_wget_scripts resolve matched "./cmip6_clt_data"
    RunOutcome.completed result.1 result.2 (topModels result.2)

/-! ## Specification-side helpers -/

/-- The first record of `rs` that parses successfully and carries model
name `m`.  The dedup via `seen_models` makes this the record whose info the
pass retains for model `m`. -/
def firstParsed (rs : List RawRecord) (m : String) : Option ModelInfo :=
  rs.findSome? fun r =>
    match parseRecord r with
    | some i => if i.model = m then some i else none
    | none => none

/-- The first dict entry whose stored model name is `m`. -/
def entryFor (d : List (String × ModelInfo)) (m : String) : Option ModelInfo :=
  (d.find? fun p => p.2.model == m).map Prod.snd

/-- The matched model a common key would contribute, ignoring the
per-model dedup. -/
def matchFor (hist ssp : List (String × ModelInfo)) (key : String) : Option MatchedModel :=
  match dictGet? hist key, dictGet? ssp key with
  | some hist_info, some ssp_info => some (mkMatched hist_info ssp_info)
  | _, _ => none

/-- A string free of the key separator `'_'`. -/
def noSep (s : String) : Prop := '_' ∉ s.data

instance (s : String) : Decidable (noSep s) := by
  unfold noSep; infer_instance

/-- An info whose key-relevant fields are separator-free, so that
`mkey` determines the `(model, variant, grid)` triple. -/
def cleanInfo (i : ModelInfo) : Prop :=
  noSep i.model ∧ noSep i.variant ∧ noSep i.grid

instance (i : ModelInfo) : Decidable (cleanInfo i) := by
  unfold cleanInfo; infer_instance

/-- A record that, if it parses, yields a separator-free info. -/
def cleanRec (r : RawRecord) : Prop :=
  ∀ i, parseRecord r = some i → cleanInfo i

instance (r : RawRecord) : Decidable (cleanRec r) :=
  match h : parseRecord r with
  | some i =>
      if hc : cleanInfo i then
        isTrue (by intro j hj; rw [h] at hj; cases hj; exact hc)
      else isFalse (fun H => hc (H i h))
  | none => isTrue (by intro j hj; rw [h] at hj; cases hj)

/-- Every record of the list is clean. -/
def cleanList (rs : List RawRecord) : Prop := ∀ r ∈ rs, cleanRec r

instance (rs : List RawRecord) : Decidable (cleanList rs) := by
  unfold cleanList; infer_instance

/-- A gated processing step: `processSspRecord` is the gate `fun _ => true`
and `processHistRecord L` the gate `fun s => s ∈ L`; used to prove the two
passes' properties once. -/
def gstep (gate : String → Bool) (st : PassState) (ds : RawRecord) : PassState :=
  match parseRecord ds with
  | none => st
  | some info =>
      if gate info.model then
        if info.model ∈ st.seen then st
        else { seen := info.model :: st.seen,
               models := dictSet st.models (modelVariantKey info.model info.variant info.grid) info }
      else st

/-- The invariant the passes maintain (on clean input): every entry sits
under its own key, is clean, and its model is seen; keys and models are
duplicate-free; every seen model has an entry. -/
structure Inv (st : PassState) : Prop where
  entries : ∀ p ∈ st.models, p.1 = mkey p.2 ∧ cleanInfo p.2 ∧ p.2.model ∈ st.seen
  keysNodup : (st.models.map Prod.fst).Nodup
  modelsNodup : (st.models.map fun p => p.2.model).Nodup
  seenEntries : ∀ m ∈ st.seen, ∃ p ∈ st.models, p.2.model = m

/-- A fully populated raw record, for concrete test inputs. -/
def rawRec (m i v g d : String) : RawRecord :=
  { source_id := some [m], institution_id := some [i],
    variant_label := some [v], grid_label := some [g], dataset_id := d }

/-- A file-listing oracle that always raises, for concrete test inputs. -/
def errResolve : String → Except String (List FileEntry) :=
  fun _ => Except.error "boom"

/-- A file-listing oracle that always returns the same two files (one of
them without a download URL), for concrete test inputs. -/
def okResolve : String → Except String (List FileEntry) :=
  fun _ => Except.ok [{ filename := "f1.nc", download_url := "http-u1" },
                      { filename := "f2.nc", download_url := "" }]

/-! ## The two passes are instances of the gated step -/

theorem processSspRecord_eq_gstep (st : PassState) (ds : RawRecord) :
    processSspRecord st ds = gstep (fun _ => true) st ds := by
  unfold processSspRecord gstep
  cases parseRecord ds <;> simp

theorem processHistRecord_eq_gstep (L : List String) (st : PassState) (ds : RawRecord) :
    processHistRecord L st ds = gstep (fun s => decide (s ∈ L)) st ds := by
  unfold processHistRecord gstep parseRecord
  cases h1 : getField ds.source_id <;> cases h2 : getField ds.institution_id <;>
    cases h3 : getField ds.variant_label <;> cases h4 : getField ds.grid_label <;>
      simp [h1, h2, h3, h4]

theorem sspPass_eq_gfold (rs : List RawRecord) :
    sspPass rs = rs.foldl (gstep fun _ => true) initState := by
  unfold sspPass
  have h : processSspRecord = gstep fun _ => true := by
    funext st ds
    exact processSspRecord_eq_gstep st ds
  rw [h]

theorem histPass_eq_gfold (L : List String) (rs : List RawRecord) :
    histPass L rs = rs.foldl (gstep fun s => decide (s ∈ L)) initState := by
  unfold histPass
  have h : processHistRecord L = gstep fun s => decide (s ∈ L) := by
    funext st ds
    exact processHistRecord_eq_gstep L st ds
  rw [h]

/-! ## Key strings determine the identity triple on separator-free fields -/

theorem noSep_append_inj {a c t u : List Char} (ha : '_' ∉ a) (hc : '_' ∉ c)
    (h : a ++ '_' :: t = c ++ '_' :: u) : a = c ∧ t = u := by
  induction a generalizing c with
  | nil =>
    cases c with
    | nil => simpa using h
    | cons y ys =>
      simp only [List.nil_append, List.cons_append, List.cons.injEq] at h
      have : ('_' : Char) ∈ y :: ys := by rw [h.1]; exact List.mem_cons_self y ys
      exact absurd this hc
  | cons x xs ih =>
    cases c with
    | nil =>
      simp only [List.nil_append, List.cons_append, List.cons.injEq] at h
      have : ('_' : Char) ∈ x :: xs := by rw [← h.1]; exact List.mem_cons_self x xs
      exact absurd this ha
    | cons y ys =>
      simp only [List.cons_append, List.cons.injEq] at h
      obtain ⟨hxy, hrest⟩ := h
      have hr := ih (fun hm => ha (List.mem_cons_of_mem _ hm))
        (fun hm => hc (List.mem_cons_of_mem _ hm)) hrest
      exact ⟨by rw [hxy, hr.1], hr.2⟩

theorem mkey_inj {i j : ModelInfo} (hi : cleanInfo i) (hj : cleanInfo j)
    (h : mkey i = mkey j) :
    i.model = j.model ∧ i.variant = j.variant ∧ i.grid = j.grid := by
  have hsep : ("_" : String).data = ['_'] := rfl
  have hd : i.model.data ++ '_' :: (i.variant.data ++ '_' :: i.grid.data)
      = j.model.data ++ '_' :: (j.variant.data ++ '_' :: j.grid.data) := by
    have := congrArg String.data h
    simpa [mkey, modelVariantKey, String.data_append, hsep, List.append_assoc] using this
  have h1 := noSep_append_inj hi.1 hj.1 hd
  have h2 := noSep_append_inj hi.2.1 hj.2.1 h1.2
  exact ⟨String.ext h1.1, String.ext h2.1, String.ext h2.2⟩

/-! ## Dictionary lemmas -/

theorem dictSet_of_fresh {d : List (String × ModelInfo)} {k : String} (v : ModelInfo)
    (h : ∀ p ∈ d, p.1 ≠ k) : dictSet d k v = d ++ [(k, v)] := by
  induction d with
  | nil => rfl
  | cons p rest ih =>
    unfold dictSet
    rw [if_neg (by simpa using h p (List.mem_cons_self p rest))]
    rw [ih fun q hq => h q (List.mem_cons_of_mem _ hq)]
    rfl

theorem entryFor_append (d e : List (String × ModelInfo)) (m : String) :
    entryFor (d ++ e) m = (entryFor d m).or (entryFor e m) := by
  unfold entryFor
  rw [List.find?_append]
  cases d.find? fun p => p.2.model == m <;> simp

theorem entryFor_singleton (k : String) (v : ModelInfo) (m : String) :
    entryFor [(k, v)] m = if v.model = m then some v else none := by
  by_cases h : v.model = m <;> simp [entryFor, h]

theorem entryFor_isSome_iff {d : List (String × ModelInfo)} {m : String} :
    (entryFor d m).isSome ↔ ∃ p ∈ d, p.2.model = m := by
  unfold entryFor
  simp [List.find?_isSome]

theorem entryFor_eq_some_mem {d : List (String × ModelInfo)} {m : String} {i : ModelInfo}
    (h : entryFor d m = some i) : (∃ k, (k, i) ∈ d) ∧ i.model = m := by
  unfold entryFor at h
  cases hf : d.find? (fun p => p.2.model == m) with
  | none => rw [hf] at h; cases h
  | some p =>
    rw [hf] at h
    injection h with h2
    have hmem := List.mem_of_find?_eq_some hf
    have hpred := List.find?_some hf
    subst h2
    refine ⟨⟨p.1, by simpa using hmem⟩, by simpa using hpred⟩

theorem entryFor_of_mem {d : List (String × ModelInfo)}
    (hnd : (d.map fun p => p.2.model).Nodup) {k : String} {i : ModelInfo}
    (h : (k, i) ∈ d) : entryFor d i.model = some i := by
  induction d with
  | nil => cases h
  | cons p rest ih =>
    rcases List.mem_cons.mp h with heq | hmem
    · rw [← heq]
      simp [entryFor]
    · have hnd2 : p.2.model ∉ (rest.map fun q => q.2.model)
          ∧ (rest.map fun q => q.2.model).Nodup := by
        rw [List.map_cons] at hnd
        exact List.nodup_cons.mp hnd
      have hne : ¬ ((p.2.model == i.model) = true) := by
        intro hb
        have hbm : p.2.model = i.model := by simpa using hb
        exact hnd2.1 (hbm ▸ List.mem_map.mpr ⟨(k, i), hmem, rfl⟩)
      unfold entryFor
      rw [show List.find? (fun q => q.2.model == i.model) (p :: rest)
            = List.find? (fun q => q.2.model == i.model) rest
          from List.find?_cons_of_neg _ hne]
      exact ih hnd2.2 hmem

theorem dictGet?_mem {d : List (String × ModelInfo)} {k : String} {i : ModelInfo}
    (h : dictGet? d k = some i) : (k, i) ∈ d := by
  unfold dictGet? at h
  cases hf : d.find? (fun p => p.1 == k) with
  | none => rw [hf] at h; cases h
  | some p =>
    rw [hf] at h
    injection h with h2
    have hmem := List.mem_of_find?_eq_some hf
    have hpred := List.find?_some hf
    have hp1 : p.1 = k := by simpa using hpred
    have : p = (k, i) := by
      cases p
      simp only at hp1 h2
      rw [hp1, h2]
    rwa [this] at hmem

theorem dictGet?_of_mem {d : List (String × ModelInfo)} (hnd : (d.map Prod.fst).Nodup)
    {k : String} {i : ModelInfo} (h : (k, i) ∈ d) : dictGet? d k = some i := by
  induction d with
  | nil => cases h
  | cons p rest ih =>
    rcases List.mem_cons.mp h with heq | hmem
    · rw [← heq]
      simp [dictGet?]
    · have hnd2 : p.1 ∉ rest.map Prod.fst ∧ (rest.map Prod.fst).Nodup := by
        rw [List.map_cons] at hnd
        exact List.nodup_cons.mp hnd
      have hne : ¬ ((p.1 == k) = true) := by
        intro hb
        have hbk : p.1 = k := by simpa using hb
        exact hnd2.1 (hbk ▸ List.mem_map.mpr ⟨(k, i), hmem, rfl⟩)
      unfold dictGet?
      rw [show List.find? (fun q => q.1 == k) (p :: rest)
            = List.find? (fun q => q.1 == k) rest
          from List.find?_cons_of_neg _ hne]
      exact ih hnd2.2 hmem

theorem dictGet?_isSome_iff {d : List (String × ModelInfo)} {k : String} :
    (dictGet? d k).isSome ↔ ∃ p ∈ d, p.1 = k := by
  unfold dictGet?
  simp [List.find?_isSome]

/-! ## Stepping equations for the gated step -/

theorem gstep_parse_none {gate : String → Bool} {st : PassState} {ds : RawRecord}
    (hp : parseRecord ds = none) : gstep gate st ds = st := by
  unfold gstep
  rw [hp]

theorem gstep_gate_false {gate : String → Bool} {st : PassState} {ds : RawRecord}
    {info : ModelInfo} (hp : parseRecord ds = some info)
    (hg : gate info.model = false) : gstep gate st ds = st := by
  unfold gstep
  rw [hp]
  simp [hg]

theorem gstep_seen {gate : String → Bool} {st : PassState} {ds : RawRecord}
    {info : ModelInfo} (hp : parseRecord ds = some info)
    (hseen : info.model ∈ st.seen) : gstep gate st ds = st := by
  unfold gstep
  rw [hp]
  by_cases hg : gate info.model = true
  · simp [hg, hseen]
  · simp [hg]

theorem gstep_push {gate : String → Bool} {st : PassState} {ds : RawRecord}
    {info : ModelInfo} (hp : parseRecord ds = some info)
    (hg : gate info.model = true) (hseen : info.model ∉ st.seen) :
    gstep gate st ds =
      { seen := info.model :: st.seen,
        models := dictSet st.models (modelVariantKey info.model info.variant info.grid) info } := by
  unfold gstep
  rw [hp]
  simp [hg, hseen]

theorem seen_subset_gstep {gate : String → Bool} {st : PassState} {ds : RawRecord} :
    st.seen ⊆ (gstep gate st ds).seen := by
  cases hp : parseRecord ds with
  | none => rw [gstep_parse_none hp]; exact fun x hx => hx
  | some info =>
    by_cases hg : gate info.model = true
    · by_cases hseen : info.model ∈ st.seen
      · rw [gstep_seen hp hseen]; exact fun x hx => hx
      · rw [gstep_push hp hg hseen]
        exact List.subset_cons_self _ _
    · rw [gstep_gate_false hp (by simpa using hg)]; exact fun x hx => hx

/-! ## Invariant preservation -/

theorem fresh_key {st : PassState} (hst : Inv st) {info : ModelInfo} (hclean : cleanInfo info)
    (hseen : info.model ∉ st.seen) :
    ∀ p ∈ st.models, p.1 ≠ modelVariantKey info.model info.variant info.grid := by
  intro p hpmem heq
  obtain ⟨hk, hcl, hsn⟩ := hst.entries p hpmem
  have hkey : mkey p.2 = mkey info := by rw [← hk, heq]; rfl
  exact hseen ((mkey_inj hcl hclean hkey).1 ▸ hsn)

theorem Inv_initState : Inv initState := by
  refine ⟨?_, ?_, ?_, ?_⟩
  · intro p hp; cases hp
  · simp [initState]
  · simp [initState]
  · intro m hm; cases hm

theorem Inv_gstep {gate : String → Bool} {st : PassState} {ds : RawRecord}
    (hst : Inv st) (hds : cleanRec ds) : Inv (gstep gate st ds) := by
  cases hp : parseRecord ds with
  | none => rw [gstep_parse_none hp]; exact hst
  | some info =>
    by_cases hg : gate info.model = true
    · by_cases hseen : info.model ∈ st.seen
      · rw [gstep_seen hp hseen]; exact hst
      · rw [gstep_push hp hg hseen]
        have hclean : cleanInfo info := hds info hp
        have hfresh := fresh_key hst hclean hseen
        rw [dictSet_of_fresh info hfresh]
        refine ⟨?_, ?_, ?_, ?_⟩
        · intro p hpmem
          rcases List.mem_append.mp hpmem with h1 | h2
          · obtain ⟨hk, hcl, hsn⟩ := hst.entries p h1
            exact ⟨hk, hcl, List.mem_cons_of_mem _ hsn⟩
          · have hp2 : p = (modelVariantKey info.model info.variant info.grid, info) := by
              simpa using h2
            rw [hp2]
            exact ⟨rfl, hclean, List.mem_cons_self _ _⟩
        · rw [List.map_append]
          refine List.Nodup.append hst.keysNodup (by simp) ?_
          intro a ha hb
          have hbk : a = modelVariantKey info.model info.variant info.grid := by simpa using hb
          obtain ⟨p, hpmem, hpa⟩ := List.mem_map.mp ha
          exact hfresh p hpmem (by rw [hpa, hbk])
        · rw [List.map_append]
          refine List.Nodup.append hst.modelsNodup (by simp) ?_
          intro a ha hb
          have hbm : a = info.model := by simpa using hb
          obtain ⟨p, hpmem, hpa⟩ := List.mem_map.mp ha
          have hsn := (hst.entries p hpmem).2.2
          rw [hpa, hbm] at hsn
          exact hseen hsn
        · intro m hm
          rcases List.mem_cons.mp hm with rfl | hm2
          · exact ⟨(modelVariantKey info.model info.variant info.grid, info),
              List.mem_append_right _ (by simp), rfl⟩
          · obtain ⟨p, hpmem, hpm⟩ := hst.seenEntries m hm2
            exact ⟨p, List.mem_append_left _ hpmem, hpm⟩
    · rw [gstep_gate_false hp (by simpa using hg)]; exact hst

theorem Inv_foldl_gstep {gate : String → Bool} :
    ∀ (rs : List RawRecord) (st : PassState),
    (∀ r ∈ rs, cleanRec r) → Inv st → Inv (rs.foldl (gstep gate) st) := by
  intro rs
  induction rs with
  | nil => intro st _ h; exact h
  | cons r rs ih =>
    intro st hcl hst
    exact ih _ (fun q hq => hcl q (List.mem_cons_of_mem _ hq))
      (Inv_gstep hst (hcl r (List.mem_cons_self _ _)))

theorem Inv.entry_of_seen {st : PassState} (h : Inv st) {m : String} (hm : m ∈ st.seen) :
    ∃ i, entryFor st.models m = some i := by
  obtain ⟨p, hp, hpm⟩ := h.seenEntries m hm
  exact Option.isSome_iff_exists.mp (entryFor_isSome_iff.mpr ⟨p, hp, hpm⟩)

theorem Inv.seen_of_entry {st : PassState} (h : Inv st) {m : String} {i : ModelInfo}
    (he : entryFor st.models m = some i) : m ∈ st.seen := by
  obtain ⟨⟨k, hk⟩, him⟩ := entryFor_eq_some_mem he
  have hsn := (h.entries _ hk).2.2
  rwa [him] at hsn

/-! ## `firstParsed` equations -/

theorem firstParsed_nil (m : String) : firstParsed [] m = none := rfl

theorem firstParsed_cons_none {r : RawRecord} {rs : List RawRecord} {m : String}
    (hp : parseRecord r = none) : firstParsed (r :: rs) m = firstParsed rs m := by
  unfold firstParsed
  rw [List.findSome?_cons]
  simp [hp]

theorem firstParsed_cons_some {r : RawRecord} {rs : List RawRecord} {m : String}
    {i : ModelInfo} (hp : parseRecord r = some i) :
    firstParsed (r :: rs) m = if i.model = m then some i else firstParsed rs m := by
  unfold firstParsed
  rw [List.findSome?_cons]
  by_cases h : i.model = m <;> simp [hp, h]

theorem firstParsed_model {rs : List RawRecord} {m : String} {i : ModelInfo}
    (h : firstParsed rs m = some i) : i.model = m := by
  induction rs with
  | nil => cases h
  | cons r rs ih =>
    cases hp : parseRecord r with
    | none => rw [firstParsed_cons_none hp] at h; exact ih h
    | some j =>
      rw [firstParsed_cons_some hp] at h
      by_cases hj : j.model = m
      · rw [if_pos hj] at h
        injection h with h2
        rw [← h2]
        exact hj
      · rw [if_neg hj] at h
        exact ih h

/-! ## The seen set after a pass -/

theorem seen_foldl_gstep (gate : String → Bool) :
    ∀ (rs : List RawRecord) (st : PassState) (m : String),
    m ∈ (rs.foldl (gstep gate) st).seen ↔
      m ∈ st.seen ∨ (gate m = true ∧ ∃ r ∈ rs, ∃ i, parseRecord r = some i ∧ i.model = m) := by
  intro rs
  induction rs with
  | nil => intro st m; simp
  | cons r rs ih =>
    intro st m
    rw [List.foldl_cons, ih]
    constructor
    · rintro (hmem | hrest)
      · cases hp : parseRecord r with
        | none => rw [gstep_parse_none hp] at hmem; exact Or.inl hmem
        | some info =>
          by_cases hg : gate info.model = true
          · by_cases hseen : info.model ∈ st.seen
            · rw [gstep_seen hp hseen] at hmem; exact Or.inl hmem
            · rw [gstep_push hp hg hseen] at hmem
              rcases List.mem_cons.mp hmem with rfl | h2
              · exact Or.inr ⟨hg, r, List.mem_cons_self _ _, info, hp, rfl⟩
              · exact Or.inl h2
          · rw [gstep_gate_false hp (by simpa using hg)] at hmem; exact Or.inl hmem
      · obtain ⟨hgm, q, hq, i, hpi, him⟩ := hrest
        exact Or.inr ⟨hgm, q, List.mem_cons_of_mem _ hq, i, hpi, him⟩
    · rintro (hmem | ⟨hgm, q, hq, i, hpi, him⟩)
      · exact Or.inl (seen_subset_gstep hmem)
      · rcases List.mem_cons.mp hq with rfl | hq2
        · by_cases hseen : m ∈ st.seen
          · exact Or.inl (seen_subset_gstep hseen)
          · left
            rw [← him] at hgm hseen
            rw [gstep_push hpi hgm hseen]
            rw [← him]
            exact List.mem_cons_self _ _
        · exact Or.inr ⟨hgm, q, hq2, i, hpi, him⟩

/-! ## The dict entry a pass retains for each model -/

theorem entryFor_foldl_gstep (gate : String → Bool) :
    ∀ (rs : List RawRecord) (st : PassState), (∀ r ∈ rs, cleanRec r) → Inv st →
    ∀ m, entryFor (rs.foldl (gstep gate) st).models m =
      match entryFor st.models m with
      | some i => some i
      | none => if gate m = true then firstParsed rs m else none := by
  intro rs
  induction rs with
  | nil =>
    intro st _ _ m
    rw [List.foldl_nil, firstParsed_nil]
    cases entryFor st.models m <;> simp
  | cons r rs ih =>
    intro st hcl hst m
    have hr : cleanRec r := hcl r (List.mem_cons_self _ _)
    have hcl2 : ∀ q ∈ rs, cleanRec q := fun q hq => hcl q (List.mem_cons_of_mem _ hq)
    rw [List.foldl_cons, ih (gstep gate st r) hcl2 (Inv_gstep hst hr) m]
    cases hp : parseRecord r with
    | none =>
      rw [gstep_parse_none hp, firstParsed_cons_none hp]
    | some info =>
      by_cases hg : gate info.model = true
      · by_cases hseen : info.model ∈ st.seen
        · rw [gstep_seen hp hseen, firstParsed_cons_some hp]
          by_cases hm : info.model = m
          · obtain ⟨j, hj⟩ := hst.entry_of_seen (hm ▸ hseen)
            rw [hj]
          · rw [if_neg hm]
        · rw [gstep_push hp hg hseen, firstParsed_cons_some hp]
          have hclean : cleanInfo info := hr info hp
          have hfresh := fresh_key hst hclean hseen
          have hmodels : (gstep gate st r).models
              = st.models ++ [(modelVariantKey info.model info.variant info.grid, info)] := by
            rw [gstep_push hp hg hseen, dictSet_of_fresh info hfresh]
          rw [gstep_push hp hg hseen] at hmodels
          rw [hmodels, entryFor_append, entryFor_singleton]
          by_cases hm : info.model = m
          · have hnone : entryFor st.models m = none := by
              cases he : entryFor st.models m with
              | none => rfl
              | some j => exact absurd (hst.seen_of_entry he) (hm ▸ hseen)
            rw [hnone, if_pos hm, if_pos hm]
            rw [← hm] at *
            simp [hg]
          · rw [if_neg hm, if_neg hm]
            cases entryFor st.models m <;> simp
      · rw [gstep_gate_false hp (by simpa using hg), firstParsed_cons_some hp]
        by_cases hm : info.model = m
        · rw [← hm]
          cases he : entryFor st.models info.model with
          | some j => simp
          | none =>
            simp only [if_pos rfl]
            have hgm : ¬ gate info.model = true := hg
            simp [hgm]
        · rw [if_neg hm]

theorem entryFor_sspModels {rs : List RawRecord} (h : cleanList rs) (m : String) :
    entryFor (sspModels rs) m = firstParsed rs m := by
  unfold sspModels
  rw [sspPass_eq_gfold, entryFor_foldl_gstep _ rs initState h Inv_initState m]
  simp [initState, entryFor]

theorem entryFor_histPass {L : List String} {rs : List RawRecord} (h : cleanList rs)
    (m : String) :
    entryFor (histPass L rs).models m = if m ∈ L then firstParsed rs m else none := by
  rw [histPass_eq_gfold, entryFor_foldl_gstep _ rs initState h Inv_initState m]
  by_cases hm : m ∈ L <;> simp [initState, entryFor, hm]

theorem Inv_sspPass {rs : List RawRecord} (h : cleanList rs) : Inv (sspPass rs) := by
  rw [sspPass_eq_gfold]
  exact Inv_foldl_gstep rs initState h Inv_initState

theorem Inv_histPass {L : List String} {rs : List RawRecord} (h : cleanList rs) :
    Inv (histPass L rs) := by
  rw [histPass_eq_gfold]
  exact Inv_foldl_gstep rs initState h Inv_initState

/-! ## The matched-models loop -/

theorem matchFor_eq_some {hist ssp : List (String × ModelInfo)} {k : String}
    {mm : MatchedModel} (h : matchFor hist ssp k = some mm) :
    ∃ hi si, dictGet? hist k = some hi ∧ dictGet? ssp k = some si ∧ mm = mkMatched hi si := by
  unfold matchFor at h
  cases h1 : dictGet? hist k with
  | none => rw [h1] at h; cases h
  | some hi =>
    cases h2 : dictGet? ssp k with
    | none => rw [h1, h2] at h; cases h
    | some si =>
      rw [h1, h2] at h
      injection h with h3
      exact ⟨hi, si, rfl, rfl, h3.symm⟩

theorem buildStep_no_match {hist ssp : List (String × ModelInfo)}
    {acc : List String × List MatchedModel} {k : String}
    (h : matchFor hist ssp k = none) : buildStep hist ssp acc k = acc := by
  unfold buildStep
  unfold matchFor at h
  cases h1 : dictGet? hist k with
  | none => simp only [h1]
  | some hi =>
    cases h2 : dictGet? ssp k with
    | none => simp only [h1, h2]
    | some si => rw [h1, h2] at h; cases h

theorem buildStep_match {hist ssp : List (String × ModelInfo)}
    {acc : List String × List MatchedModel} {k : String} {hi si : ModelInfo}
    (h1 : dictGet? hist k = some hi) (h2 : dictGet? ssp k = some si)
    (hnotin : hi.model ∉ acc.1) :
    buildStep hist ssp acc k = (hi.model :: acc.1, acc.2 ++ [mkMatched hi si]) := by
  unfold buildStep
  simp only [h1, h2]
  rw [if_neg hnotin]

theorem buildMatched_foldl (hist ssp : List (String × ModelInfo)) :
    ∀ (keys : List String) (acc : List String × List MatchedModel),
    (∀ k ∈ keys, ∀ mm, matchFor hist ssp k = some mm → mm.model ∉ acc.1) →
    List.Pairwise (fun k1 k2 => ∀ m1 m2, matchFor hist ssp k1 = some m1 →
        matchFor hist ssp k2 = some m2 → m1.model ≠ m2.model) keys →
    (keys.foldl (buildStep hist ssp) acc).2 = acc.2 ++ keys.filterMap (matchFor hist ssp) := by
  intro keys
  induction keys with
  | nil => intro acc _ _; simp
  | cons k ks ih =>
    intro acc hfresh hpw
    have hpc := List.pairwise_cons.mp hpw
    rw [List.foldl_cons]
    cases hm : matchFor hist ssp k with
    | none =>
      rw [buildStep_no_match hm, List.filterMap_cons_none hm]
      exact ih acc (fun q hq mm h2 => hfresh q (List.mem_cons_of_mem _ hq) mm h2) hpc.2
    | some mm =>
      obtain ⟨hi, si, h1, h2, hmk⟩ := matchFor_eq_some hm
      have hnotin : hi.model ∉ acc.1 := by
        have hx := hfresh k (List.mem_cons_self _ _) mm hm
        rwa [hmk] at hx
      rw [buildStep_match h1 h2 hnotin]
      rw [ih (hi.model :: acc.1, acc.2 ++ [mkMatched hi si]) ?_ hpc.2]
      · rw [List.filterMap_cons_some hm, hmk]
        simp [List.append_assoc]
      · intro q hq mm2 hq2 hmem
        rcases List.mem_cons.mp hmem with heq | hmem2
        · exact (hpc.1 q hq mm mm2 hm hq2) (by rw [hmk]; exact heq.symm)
        · exact hfresh q (List.mem_cons_of_mem _ hq) mm2 hq2 hmem2

theorem buildMatched_eq {hist ssp : List (String × ModelInfo)}
    (hknd : (hist.map Prod.fst).Nodup)
    (hmnd : (hist.map fun p => p.2.model).Nodup) :
    buildMatched hist ssp = (commonKeys hist ssp).filterMap (matchFor hist ssp) := by
  unfold buildMatched
  rw [buildMatched_foldl hist ssp (commonKeys hist ssp) ([], []) ?_ ?_]
  · rw [List.nil_append]
  · intro k hk mm hmm hmem
    cases hmem
  · have hnd : (commonKeys hist ssp).Nodup := by
      unfold commonKeys
      exact List.Nodup.filter _ hknd
    refine hnd.imp_of_mem ?_
    intro a b _ _ hne m1 m2 hma hmb heq
    obtain ⟨hi1, si1, ha1, _, hk1⟩ := matchFor_eq_some hma
    obtain ⟨hi2, si2, ha2, _, hk2⟩ := matchFor_eq_some hmb
    have hm12 : hi1.model = hi2.model := by
      have e1 : m1.model = hi1.model := by rw [hk1]; rfl
      have e2 : m2.model = hi2.model := by rw [hk2]; rfl
      rw [← e1, ← e2, heq]
    have hpair := List.inj_on_of_nodup_map hmnd (dictGet?_mem ha1) (dictGet?_mem ha2) hm12
    exact hne (congrArg Prod.fst hpair)

theorem find_matching_variants_eq (A B : List RawRecord) :
    find_matching_variants A B =
      buildMatched (histPass (sspModelsList (sspModels A)) B).models (sspModels A) := rfl

/-- On separator-free records, a matched model is exactly a pair of
first-retained records (one per experiment, per model name) agreeing on
variant and grid. -/
theorem mem_find_matching_iff {A B : List RawRecord} (hA : cleanList A) (hB : cleanList B)
    (mm : MatchedModel) :
    mm ∈ find_matching_variants A B ↔
      ∃ ih is, firstParsed B ih.model = some ih ∧ firstParsed A ih.model = some is ∧
        is.variant = ih.variant ∧ is.grid = ih.grid ∧ mm = mkMatched ih is := by
  have hInvS : Inv (sspPass A) := Inv_sspPass hA
  have hInvH : Inv (histPass (sspModelsList (sspModels A)) B) := Inv_histPass hB
  have hSmodelsNodup : ((sspModels A).map fun p => p.2.model).Nodup := hInvS.modelsNodup
  have hSkeysNodup : ((sspModels A).map Prod.fst).Nodup := hInvS.keysNodup
  have hSentries : ∀ p ∈ sspModels A, p.1 = mkey p.2 ∧ cleanInfo p.2 ∧
      p.2.model ∈ (sspPass A).seen := hInvS.entries
  rw [find_matching_variants_eq, buildMatched_eq hInvH.keysNodup hInvH.modelsNodup]
  rw [List.mem_filterMap]
  constructor
  · rintro ⟨k, hk, hmf⟩
    obtain ⟨hi, si, h1, h2, hmk⟩ := matchFor_eq_some hmf
    have hmemH := dictGet?_mem h1
    have hmemS := dictGet?_mem h2
    obtain ⟨hkeyH, hclH, -⟩ := hInvH.entries _ hmemH
    obtain ⟨hkeyS, hclS, -⟩ := hSentries _ hmemS
    have hkk : mkey hi = mkey si := by rw [← hkeyH, ← hkeyS]
    obtain ⟨hmod, hvar, hgr⟩ := mkey_inj hclH hclS hkk
    have heH : entryFor (histPass (sspModelsList (sspModels A)) B).models hi.model
        = some hi := entryFor_of_mem hInvH.modelsNodup hmemH
    have heS : entryFor (sspModels A) si.model = some si :=
      entryFor_of_mem hSmodelsNodup hmemS
    rw [entryFor_histPass hB] at heH
    by_cases hin : hi.model ∈ sspModelsList (sspModels A)
    · rw [if_pos hin] at heH
      rw [entryFor_sspModels hA] at heS
      refine ⟨hi, si, heH, ?_, hvar.symm, hgr.symm, hmk⟩
      rw [hmod]
      exact heS
    · rw [if_neg hin] at heH
      cases heH
  · rintro ⟨ih, is, hfB, hfA, hvar, hgr, hmk⟩
    have hisModel : is.model = ih.model := firstParsed_model hfA
    have heS : entryFor (sspModels A) ih.model = some is := by
      rw [entryFor_sspModels hA]
      exact hfA
    obtain ⟨⟨k2, hk2⟩, -⟩ := entryFor_eq_some_mem heS
    have hkey2 : k2 = mkey is := (hSentries _ hk2).1
    have hinL : ih.model ∈ sspModelsList (sspModels A) :=
      List.mem_map.mpr ⟨(k2, is), hk2, hisModel⟩
    have heH : entryFor (histPass (sspModelsList (sspModels A)) B).models ih.model
        = some ih := by
      rw [entryFor_histPass hB, if_pos hinL]
      exact hfB
    obtain ⟨⟨k1, hk1⟩, -⟩ := entryFor_eq_some_mem heH
    have hkey1 : k1 = mkey ih := (hInvH.entries _ hk1).1
    have hkk : mkey is = mkey ih := by
      unfold mkey modelVariantKey
      rw [hisModel, hvar, hgr]
    have hmemS2 : (mkey ih, is) ∈ sspModels A := by
      rw [← hkk, ← hkey2]
      exact hk2
    have hmemH2 : (mkey ih, ih) ∈ (histPass (sspModelsList (sspModels A)) B).models := by
      rw [← hkey1]
      exact hk1
    refine ⟨mkey ih, ?_, ?_⟩
    · unfold commonKeys
      refine List.mem_filter.mpr ⟨?_, ?_⟩
      · exact List.mem_map.mpr ⟨(k1, ih), hk1, hkey1⟩
      · rw [dictGet?_of_mem hSkeysNodup hmemS2]
        rfl
    · unfold matchFor
      rw [dictGet?_of_mem hInvH.keysNodup hmemH2, dictGet?_of_mem hSkeysNodup hmemS2]
      rw [hmk]

theorem mem_matchedTriples {A B : List RawRecord} {m v g : String} :
    (m, v, g) ∈ matchedTriples A B ↔
      ∃ mm ∈ find_matching_variants A B, mm.model = m ∧ mm.variant = v ∧ mm.grid = g := by
  unfold matchedTriples
  rw [List.mem_map]
  constructor
  · rintro ⟨mm, hmm, heq⟩
    simp only [Prod.mk.injEq] at heq
    exact ⟨mm, hmm, heq.1, heq.2.1, heq.2.2⟩
  · rintro ⟨mm, hmm, h1, h2, h3⟩
    exact ⟨mm, hmm, by rw [h1, h2, h3]⟩

/-- On separator-free records, a `(model, variant, grid)` triple is matched
exactly when each experiment's first retained record for that model carries
that variant and grid. -/
theorem triple_match_iff {A B : List RawRecord} (hA : cleanList A) (hB : cleanList B)
    (m v g : String) :
    (∃ mm ∈ find_matching_variants A B, mm.model = m ∧ mm.variant = v ∧ mm.grid = g) ↔
      ((∃ i, firstParsed A m = some i ∧ i.variant = v ∧ i.grid = g) ∧
       (∃ j, firstParsed B m = some j ∧ j.variant = v ∧ j.grid = g)) := by
  constructor
  · rintro ⟨mm, hmm, hm, hv, hg⟩
    obtain ⟨ih, is, hfB, hfA, hvar, hgr, hmk⟩ := (mem_find_matching_iff hA hB mm).mp hmm
    subst hmk
    have hmod : ih.model = m := hm
    have hv2 : ih.variant = v := hv
    have hg2 : ih.grid = g := hg
    refine ⟨⟨is, ?_, ?_, ?_⟩, ⟨ih, ?_, hv2, hg2⟩⟩
    · rw [← hmod]; exact hfA
    · rw [hvar]; exact hv2
    · rw [hgr]; exact hg2
    · rw [← hmod]; exact hfB
  · rintro ⟨⟨i, hiA, hiv, hig⟩, ⟨j, hjB, hjv, hjg⟩⟩
    have hjm : j.model = m := firstParsed_model hjB
    refine ⟨mkMatched j i, ?_, hjm, hjv, hjg⟩
    apply (mem_find_matching_iff hA hB _).mpr
    refine ⟨j, i, ?_, ?_, ?_, ?_, rfl⟩
    · rw [hjm]; exact hjB
    · rw [hjm]; exact hiA
    · rw [hiv, hjv]
    · rw [hig, hjg]

/-! ## At most one matched model per model name -/

theorem buildStep_match_seen {hist ssp : List (String × ModelInfo)}
    {acc : List String × List MatchedModel} {k : String} {hi si : ModelInfo}
    (h1 : dictGet? hist k = some hi) (h2 : dictGet? ssp k = some si)
    (hin : hi.model ∈ acc.1) : buildStep hist ssp acc k = acc := by
  unfold buildStep
  simp only [h1, h2]
  rw [if_pos hin]

theorem buildMatched_models_nodup_foldl (hist ssp : List (String × ModelInfo)) :
    ∀ (keys : List String) (acc : List String × List MatchedModel),
    ((acc.2.map fun mm => mm.model).Nodup) → (∀ mm ∈ acc.2, mm.model ∈ acc.1) →
    (((keys.foldl (buildStep hist ssp) acc).2.map fun mm => mm.model).Nodup) := by
  intro keys
  induction keys with
  | nil => intro acc h1 _; simpa using h1
  | cons k ks ih =>
    intro acc h1 h2
    rw [List.foldl_cons]
    cases hm : matchFor hist ssp k with
    | none => rw [buildStep_no_match hm]; exact ih acc h1 h2
    | some mm =>
      obtain ⟨hi, si, hh1, hh2, hmk⟩ := matchFor_eq_some hm
      by_cases hin : hi.model ∈ acc.1
      · rw [buildStep_match_seen hh1 hh2 hin]; exact ih acc h1 h2
      · rw [buildStep_match hh1 hh2 hin]
        refine ih _ ?_ ?_
        · rw [List.map_append]
          refine List.Nodup.append h1 (by simp) ?_
          intro a ha hb
          have hbm : a = hi.model := by simpa [mkMatched] using hb
          obtain ⟨mm2, hmm2, hma⟩ := List.mem_map.mp ha
          apply hin
          rw [← hbm, ← hma]
          exact h2 mm2 hmm2
        · intro mm2 hmm2
          rcases List.mem_append.mp hmm2 with hl | hr
          · exact List.mem_cons_of_mem _ (h2 mm2 hl)
          · have hmm3 : mm2 = mkMatched hi si := by simpa using hr
            rw [hmm3]
            exact List.mem_cons_self _ _

/-! ## Empty-input lemmas -/

theorem buildMatched_nil_ssp (hist : List (String × ModelInfo)) :
    buildMatched hist [] = [] := by
  unfold buildMatched commonKeys
  simp [dictGet?]

theorem find_matching_variants_nil_left (B : List RawRecord) :
    find_matching_variants [] B = [] := by
  rw [find_matching_variants_eq]
  exact buildMatched_nil_ssp _

theorem find_matching_variants_nil_right (A : List RawRecord) :
    find_matching_variants A [] = [] := rfl

/-! ## Sorting for the top-5 report -/

theorem mem_insertDesc {r : SummaryRow} {l : List SummaryRow} {b : SummaryRow} :
    b ∈ insertDesc r l ↔ b = r ∨ b ∈ l := by
  induction l with
  | nil => simp [insertDesc]
  | cons x xs ih =>
    unfold insertDesc
    by_cases hc : totalFiles x ≤ totalFiles r
    · rw [if_pos hc]
      simp
    · rw [if_neg hc]
      simp [ih]
      exact or_left_comm

theorem sorted_insertDesc {r : SummaryRow} {l : List SummaryRow}
    (h : List.Pairwise (fun a b => totalFiles b ≤ totalFiles a) l) :
    List.Pairwise (fun a b => totalFiles b ≤ totalFiles a) (insertDesc r l) := by
  induction l with
  | nil => simp [insertDesc]
  | cons x xs ih =>
    unfold insertDesc
    have hpc := List.pairwise_cons.mp h
    by_cases hc : totalFiles x ≤ totalFiles r
    · rw [if_pos hc]
      refine List.pairwise_cons.mpr ⟨?_, h⟩
      intro b hb
      rcases List.mem_cons.mp hb with rfl | hb2
      · exact hc
      · exact le_trans (hpc.1 b hb2) hc
    · rw [if_neg hc]
      refine List.pairwise_cons.mpr ⟨?_, ih hpc.2⟩
      intro b hb
      rcases mem_insertDesc.mp hb with rfl | hb2
      · exact Nat.le_of_lt (Nat.lt_of_not_le hc)
      · exact hpc.1 b hb2

theorem mem_sortDesc {l : List SummaryRow} {b : SummaryRow} :
    b ∈ sortDesc l ↔ b ∈ l := by
  induction l with
  | nil => simp [sortDesc]
  | cons x xs ih =>
    unfold sortDesc
    rw [mem_insertDesc, ih]
    exact (List.mem_cons).symm

theorem sorted_sortDesc (l : List SummaryRow) :
    List.Pairwise (fun a b => totalFiles b ≤ totalFiles a) (sortDesc l) := by
  induction l with
  | nil => exact List.Pairwise.nil
  | cons x xs ih =>
    unfold sortDesc
    exact sorted_insertDesc ih

/-! ## Script-emitter equations -/

theorem runExperiment_error {resolve : String → Except String (List FileEntry)}
    {model_dir model_name variant experiment dataset_id : String} {e : String}
    (h : resolve dataset_id = Except.error e) :
    runExperiment resolve model_dir model_name variant experiment dataset_id
      = (0, none, []) := by
  unfold runExperiment
  rw [h]

theorem runExperiment_ok {resolve : String → Except String (List FileEntry)}
    {model_dir model_name variant experiment dataset_id : String}
    {files : List FileEntry} (h : resolve dataset_id = Except.ok files) :
    runExperiment resolve model_dir model_name variant experiment dataset_id
      = (files.length, some (model_dir ++ "/" ++ experiment ++ "_wget.sh"),
         [{ path := model_dir ++ "/" ++ experiment ++ "_wget.sh", model := model_name,
            variant := variant, experiment := experiment, dataset_id := dataset_id,
            wget_entries := wgetEntries files, executable := true }]) := by
  unfold runExperiment
  rw [h]

theorem generate_snd_getElem? (resolve : String → Except String (List FileEntry))
    (matched : List MatchedModel) (output_dir : String) (k : Nat) :
    (generate_wget_scripts resolve matched output_dir).2[k]?
      = (matched[k]?).map fun mi => (processModel resolve output_dir mi).2 := by
  unfold generate_wget_scripts
  simp
  rfl

theorem generate_snd_length (resolve : String → Except String (List FileEntry))
    (matched : List MatchedModel) (output_dir : String) :
    (generate_wget_scripts resolve matched output_dir).2.length = matched.length := by
  unfold generate_wget_scripts
  simp

theorem processModel_scripts_sub (resolve : String → Except String (List FileEntry))
    (output_dir : String) {matched : List MatchedModel} {mi : MatchedModel}
    (hmi : mi ∈ matched) {sf : ScriptFile}
    (hsf : sf ∈ (processModel resolve output_dir mi).1) :
    sf ∈ (generate_wget_scripts resolve matched output_dir).1 := by
  unfold generate_wget_scripts
  simp only [List.map_map, List.mem_flatten]
  exact ⟨(processModel resolve output_dir mi).1,
    List.mem_map.mpr ⟨mi, hmi, rfl⟩, hsf⟩

/-! ## Claims -/

/-- Claim C1, counterexample.  Both experiments carry records for model `M`
(institute `I`) under two distinct matching variant identities, `(r1, gn)`
and `(r2, gn)`, yet `find_matching_variants` emits a single `MatchedModel`
(for `(r1, gn)` only): the claimed one-`MatchedModel`-per-pair behaviour
fails — the code dedups to one record per model in each pass and one
matched entry per model. -/
theorem C1_counterexample :
    parseRecord (rawRec "M" "I" "r1" "gn" "d1") = some ⟨"r1", "gn", "d1", "M", "I"⟩ ∧
    parseRecord (rawRec "M" "I" "r2" "gn" "d2") = some ⟨"r2", "gn", "d2", "M", "I"⟩ ∧
    parseRecord (rawRec "M" "I" "r1" "gn" "d3") = some ⟨"r1", "gn", "d3", "M", "I"⟩ ∧
    parseRecord (rawRec "M" "I" "r2" "gn" "d4") = some ⟨"r2", "gn", "d4", "M", "I"⟩ ∧
    find_matching_variants
        [rawRec "M" "I" "r1" "gn" "d1", rawRec "M" "I" "r2" "gn" "d2"]
        [rawRec "M" "I" "r1" "gn" "d3", rawRec "M" "I" "r2" "gn" "d4"]
      = [⟨"M", "I", "r1", "gn", "d3", "d1"⟩] := by decide

/-- Claim C1, amended.  The Matcher emits at most one `MatchedModel` per
model name: for every pair of experiment record lists, the model names of
the emitted `MatchedModel`s are pairwise distinct (the `seen_models` and
`already_included_models` sets dedup to one entry per model). -/
theorem C1_at_most_one_matched_per_model (ssp_results hist_results : List RawRecord) :
    ((find_matching_variants ssp_results hist_results).map fun mm => mm.model).Nodup := by
  rw [find_matching_variants_eq]
  unfold buildMatched
  refine buildMatched_models_nodup_foldl _ _ _ ([], []) (by simp) ?_
  intro mm h
  cases h

/-- Claim C2, counterexample.  The two input sets contain no pair of
records with equal `ModelIdentity` — the only records differ on institute
(`I1` vs `I2`) — yet a `MatchedModel` is produced, refuting the claimed
iff: the code never compares institutes. -/
theorem C2_counterexample :
    find_matching_variants [rawRec "M" "I1" "r" "g" "d1"] [rawRec "M" "I2" "r" "g" "d2"]
      = [⟨"M", "I2", "r", "g", "d2", "d1"⟩] ∧
    parseRecord (rawRec "M" "I1" "r" "g" "d1") = some ⟨"r", "g", "d1", "M", "I1"⟩ ∧
    parseRecord (rawRec "M" "I2" "r" "g" "d2") = some ⟨"r", "g", "d2", "M", "I2"⟩ ∧
    ("I1" : String) ≠ "I2" := by decide

/-- Claim C2, amended.  For records whose identity fields are free of the
key separator, a `MatchedModel` with identity `(m, v, g)` is produced iff
the first successfully parsed record for model `m` in each experiment
exists and carries variant `v` and grid `g` (institute is never compared;
later records of the same model are never considered). -/
theorem C2_matched_iff_first_retained (A B : List RawRecord)
    (hA : cleanList A) (hB : cleanList B) (m v g : String) :
    (∃ mm ∈ find_matching_variants A B, mm.model = m ∧ mm.variant = v ∧ mm.grid = g) ↔
      ((∃ i, firstParsed A m = some i ∧ i.variant = v ∧ i.grid = g) ∧
       (∃ j, firstParsed B m = some j ∧ j.variant = v ∧ j.grid = g)) :=
  triple_match_iff hA hB m v g

/-- Claim C2, witness for the amended theorem at a concrete input. -/
theorem C2_witness :
    (∃ mm ∈ find_matching_variants [rawRec "M" "I" "r" "g" "dA"]
        [rawRec "M" "J" "r" "g" "dB"],
        mm.model = "M" ∧ mm.variant = "r" ∧ mm.grid = "g") ↔
      ((∃ i, firstParsed [rawRec "M" "I" "r" "g" "dA"] "M" = some i ∧
          i.variant = "r" ∧ i.grid = "g") ∧
       (∃ j, firstParsed [rawRec "M" "J" "r" "g" "dB"] "M" = some j ∧
          j.variant = "r" ∧ j.grid = "g")) :=
  C2_matched_iff_first_retained _ _ (by decide) (by decide) "M" "r" "g"

/-- Claim C3, counterexample.  Matching is not symmetric in experiment
order: with an underscore inside a model name, the composite string keys
collide (`"A" ++ "_" ++ "b_c" ++ "_" ++ "g"` equals
`"A_b" ++ "_" ++ "c" ++ "_" ++ "g"`), and swapping which experiment's
records are processed first changes the matched `(model, variant, grid)`
set from one element to none. -/
theorem C3_counterexample :
    matchedTriples [rawRec "A" "I" "b_c" "g" "d1", rawRec "A_b" "I" "x" "y" "d2"]
        [rawRec "A_b" "J" "c" "g" "d3"]
      = [("A_b", "c", "g")] ∧
    matchedTriples [rawRec "A_b" "J" "c" "g" "d3"]
        [rawRec "A" "I" "b_c" "g" "d1", rawRec "A_b" "I" "x" "y" "d2"]
      = [] := by decide

/-- Claim C3, amended.  For records whose identity fields are free of the
key separator `'_'` (so composite keys cannot collide), matching is
symmetric in experiment order: swapping which experiment's records are
processed first yields the same set of matched `(model, variant, grid)`
triples. -/
theorem C3_symmetric_on_clean (A B : List RawRecord) (hA : cleanList A) (hB : cleanList B)
    (t : String × String × String) :
    t ∈ matchedTriples A B ↔ t ∈ matchedTriples B A := by
  obtain ⟨m, v, g⟩ := t
  rw [mem_matchedTriples, mem_matchedTriples,
    triple_match_iff hA hB m v g, triple_match_iff hB hA m v g]
  exact and_comm

/-- Claim C3, witness for the amended theorem at a concrete input. -/
theorem C3_witness :
    (("M", "r", "g") ∈ matchedTriples [rawRec "M" "I" "r" "g" "d1"]
        [rawRec "M" "J" "r" "g" "d2"]) ↔
    (("M", "r", "g") ∈ matchedTriples [rawRec "M" "J" "r" "g" "d2"]
        [rawRec "M" "I" "r" "g" "d1"]) :=
  C3_symmetric_on_clean _ _ (by decide) (by decide) ("M", "r", "g")

/-- Claim C4, counterexample.  Two records agreeing on model but differing
on institute are not treated as distinct identities: in the grouping the
second (institute `I2`, even with a different variant and grid) is dropped
as a duplicate of the first, and across experiments two records differing
only on institute are matched to each other. -/
theorem C4_counterexample :
    sspModels [rawRec "M" "I1" "v" "g" "d1", rawRec "M" "I2" "v2" "g2" "d2"]
      = [("M_v_g", ⟨"v", "g", "d1", "M", "I1"⟩)] ∧
    find_matching_variants [rawRec "M" "I1" "v" "g" "d1"] [rawRec "M" "I2" "v" "g" "d2"]
      = [⟨"M", "I2", "v", "g", "d2", "d1"⟩] := by decide

/-- Claim C4, amended.  The grouping keys on the model name alone: once any
record of some model has been retained, every later record with the same
model name is skipped entirely — its institute (and even its variant and
grid) are never consulted, so it leaves the grouping unchanged. -/
theorem C4_grouping_ignores_institute (pre post : List RawRecord) (r r2 : RawRecord)
    (i i2 : ModelInfo) (h1 : r ∈ pre) (hp1 : parseRecord r = some i)
    (hp2 : parseRecord r2 = some i2) (hmodel : i2.model = i.model) :
    sspModels (pre ++ r2 :: post) = sspModels (pre ++ post) := by
  unfold sspModels
  rw [sspPass_eq_gfold, sspPass_eq_gfold, List.foldl_append, List.foldl_append,
    List.foldl_cons]
  have hseen : i2.model ∈ (pre.foldl (gstep fun _ => true) initState).seen := by
    rw [seen_foldl_gstep]
    exact Or.inr ⟨rfl, r, h1, i, hp1, hmodel.symm⟩
  rw [gstep_seen hp2 hseen]

/-- Claim C4, witness for the amended theorem at a concrete input. -/
theorem C4_witness :
    sspModels ([rawRec "M" "I1" "v" "g" "d1"] ++ rawRec "M" "I2" "v2" "g2" "d2" :: [])
      = sspModels ([rawRec "M" "I1" "v" "g" "d1"] ++ []) :=
  C4_grouping_ignores_institute [rawRec "M" "I1" "v" "g" "d1"] []
    (rawRec "M" "I1" "v" "g" "d1") (rawRec "M" "I2" "v2" "g2" "d2")
    ⟨"v", "g", "d1", "M", "I1"⟩ ⟨"v2", "g2", "d2", "M", "I2"⟩
    (by decide) (by decide) (by decide) (by decide)

/-- Claim C5, counterexample.  A record missing all four identity fields is
not excluded: `json.get` substitutes `''` for an absent field, so the
record is grouped under empty identity values and even yields a
`MatchedModel`. -/
theorem C5_counterexample :
    sspModels [⟨none, none, none, none, "d1"⟩]
      = [("__", ⟨"", "", "d1", "", ""⟩)] ∧
    find_matching_variants [⟨none, none, none, none, "d1"⟩]
        [⟨none, none, none, none, "d2"⟩]
      = [⟨"", "", "", "", "d2", "d1"⟩] := by decide

/-- Claim C5, amended.  A record is excluded only when extracting a field
raises (the field is present but an empty list, so `[0]` raises
`IndexError`): such a record is skipped by the per-record handler and
leaves both experiments' groupings unchanged — the remaining records are
processed as if it were absent, and processing never aborts.  A record
whose fields are merely absent is instead grouped with `''` values. -/
theorem C5_raising_record_skipped (pre post : List RawRecord) (r : RawRecord)
    (h : parseRecord r = none) :
    sspModels (pre ++ r :: post) = sspModels (pre ++ post) ∧
    ∀ L, (histPass L (pre ++ r :: post)).models = (histPass L (pre ++ post)).models := by
  constructor
  · unfold sspModels
    rw [sspPass_eq_gfold, sspPass_eq_gfold, List.foldl_append, List.foldl_append,
      List.foldl_cons, gstep_parse_none h]
  · intro L
    rw [histPass_eq_gfold, histPass_eq_gfold, List.foldl_append, List.foldl_append,
      List.foldl_cons, gstep_parse_none h]

/-- Claim C5, witness for the amended theorem at a concrete input. -/
theorem C5_witness :
    sspModels ([rawRec "M" "I" "v" "g" "d1"]
        ++ (⟨some [], none, none, none, "dx"⟩ : RawRecord) :: [rawRec "N" "I" "v" "g" "d2"])
      = sspModels ([rawRec "M" "I" "v" "g" "d1"] ++ [rawRec "N" "I" "v" "g" "d2"]) :=
  (C5_raising_record_skipped [rawRec "M" "I" "v" "g" "d1"] [rawRec "N" "I" "v" "g" "d2"]
    ⟨some [], none, none, none, "dx"⟩ (by decide)).1

/-- Claim C6, counterexample.  Two records with the same model, variant and
grid: the retained info dict carries the first record's `dataset_id`
(`d1`), not the last-seen one (`d2`) — the `seen_models` check drops every
later record of an already-seen model before it can overwrite. -/
theorem C6_counterexample :
    sspModels [rawRec "M" "I" "v" "g" "d1", rawRec "M" "I" "v" "g" "d2"]
      = [("M_v_g", ⟨"v", "g", "d1", "M", "I"⟩)] := by decide

/-- Claim C6, amended.  First-seen wins: on separator-free records, the
per-experiment mapping retains, for each model name, exactly the first
successfully parsed record of that model; all later records of that model
(duplicate variant identities included) are ignored. -/
theorem C6_first_seen_wins (rs : List RawRecord) (h : cleanList rs) (m : String) :
    entryFor (sspModels rs) m = firstParsed rs m :=
  entryFor_sspModels h m

/-- Claim C6, witness for the amended theorem at a concrete input. -/
theorem C6_witness :
    entryFor (sspModels [rawRec "M" "I" "v" "g" "d1", rawRec "M" "I" "v" "g" "d2"]) "M"
      = firstParsed [rawRec "M" "I" "v" "g" "d1", rawRec "M" "I" "v" "g" "d2"] "M" :=
  C6_first_seen_wins [rawRec "M" "I" "v" "g" "d1", rawRec "M" "I" "v" "g" "d2"]
    (by decide) "M"

/-- Claim C7.  Every matched model gets exactly one summary row, in list
order (the summary length equals the matched-list length and the row at
each index carries that model's identity), and a failure resolving one
experiment's file listing is caught and recorded as a zero file count for
that experiment — the row is still produced and the remaining models are
unaffected. -/
theorem C7_failure_recorded_as_zero (resolve : String → Except String (List FileEntry))
    (output_dir : String) (matched : List MatchedModel) :
    (generate_wget_scripts resolve matched output_dir).2.length = matched.length ∧
    ∀ (k : Nat) (mi : MatchedModel), matched[k]? = some mi →
      ∃ row : SummaryRow, (generate_wget_scripts resolve matched output_dir).2[k]? = some row ∧
        row.model = mi.model ∧ row.institute = mi.institute ∧ row.variant = mi.variant ∧
        row.grid = mi.grid ∧
        (∀ e, resolve mi.historical_dataset = Except.error e → row.historical_files = 0) ∧
        (∀ e, resolve mi.ssp585_dataset = Except.error e → row.ssp585_files = 0) := by
  refine ⟨generate_snd_length resolve matched output_dir, ?_⟩
  intro k mi hk
  refine ⟨(processModel resolve output_dir mi).2, ?_, rfl, rfl, rfl, rfl, ?_, ?_⟩
  · rw [generate_snd_getElem?, hk]
    rfl
  · intro e he
    simp only [processModel, runExperiment_error he]
  · intro e he
    simp only [processModel, runExperiment_error he]

/-- Claim C7, witness at a concrete input where both resolutions fail. -/
theorem C7_witness :
    ∃ row : SummaryRow, (generate_wget_scripts errResolve
        [⟨"M", "I", "v", "g", "dh", "ds"⟩] "./out").2[0]? = some row ∧
      row.model = (⟨"M", "I", "v", "g", "dh", "ds"⟩ : MatchedModel).model ∧
      row.institute = (⟨"M", "I", "v", "g", "dh", "ds"⟩ : MatchedModel).institute ∧
      row.variant = (⟨"M", "I", "v", "g", "dh", "ds"⟩ : MatchedModel).variant ∧
      row.grid = (⟨"M", "I", "v", "g", "dh", "ds"⟩ : MatchedModel).grid ∧
      (∀ e, errResolve (⟨"M", "I", "v", "g", "dh", "ds"⟩ : MatchedModel).historical_dataset
          = Except.error e → row.historical_files = 0) ∧
      (∀ e, errResolve (⟨"M", "I", "v", "g", "dh", "ds"⟩ : MatchedModel).ssp585_dataset
          = Except.error e → row.ssp585_files = 0) :=
  (C7_failure_recorded_as_zero errResolve "./out"
    [⟨"M", "I", "v", "g", "dh", "ds"⟩]).2 0 ⟨"M", "I", "v", "g", "dh", "ds"⟩ rfl

/-- Claim C8.  Round-trip and ranking: the emitted summary has exactly one
row per `MatchedModel`, in matched-list order (the identity columns map
back to the matched list), each row's `total_files` is its historical
count plus its ssp585 count, and the top-5 report is sorted descending by
that total and drawn from the summary rows. -/
theorem C8_summary_order_and_ranking (resolve : String → Except String (List FileEntry))
    (output_dir : String) (matched : List MatchedModel) :
    ((generate_wget_scripts resolve matched output_dir).2.map
        fun row => (row.model, row.institute, row.variant, row.grid))
      = (matched.map fun mi => (mi.model, mi.institute, mi.variant, mi.grid)) ∧
    (∀ row ∈ (generate_wget_scripts resolve matched output_dir).2,
      totalFiles row = row.historical_files + row.ssp585_files) ∧
    List.Pairwise (fun a b => totalFiles b ≤ totalFiles a)
      (topModels (generate_wget_scripts resolve matched output_dir).2) ∧
    (∀ row ∈ topModels (generate_wget_scripts resolve matched output_dir).2,
      row ∈ (generate_wget_scripts resolve matched output_dir).2) := by
  refine ⟨?_, ?_, ?_, ?_⟩
  · unfold generate_wget_scripts
    simp only [List.map_map]
    rfl
  · intro row _
    rfl
  · exact List.Pairwise.sublist (List.take_sublist _ _) (sorted_sortDesc _)
  · intro row hrow
    exact mem_sortDesc.mp (List.mem_of_mem_take hrow)

/-- Claim C8, witness at a concrete input (one matched model, two files
per experiment). -/
theorem C8_witness :
    ((generate_wget_scripts okResolve [⟨"M", "I", "v", "g", "dh", "ds"⟩] "./o").2.map
        fun row => (row.model, row.institute, row.variant, row.grid))
      = ([(⟨"M", "I", "v", "g", "dh", "ds"⟩ : MatchedModel)].map
          fun mi => (mi.model, mi.institute, mi.variant, mi.grid)) ∧
    totalFiles ⟨"M", "I", "v", "g", 2, 2, "./o/M_v/historical_wget.sh",
        "./o/M_v/ssp585_wget.sh"⟩
      = (⟨"M", "I", "v", "g", 2, 2, "./o/M_v/historical_wget.sh",
          "./o/M_v/ssp585_wget.sh"⟩ : SummaryRow).historical_files
        + (⟨"M", "I", "v", "g", 2, 2, "./o/M_v/historical_wget.sh",
            "./o/M_v/ssp585_wget.sh"⟩ : SummaryRow).ssp585_files ∧
    (⟨"M", "I", "v", "g", 2, 2, "./o/M_v/historical_wget.sh",
        "./o/M_v/ssp585_wget.sh"⟩ : SummaryRow)
      ∈ (generate_wget_scripts okResolve [⟨"M", "I", "v", "g", "dh", "ds"⟩] "./o").2 := by
  have h := C8_summary_order_and_ranking okResolve "./o" [⟨"M", "I", "v", "g", "dh", "ds"⟩]
  exact ⟨h.1, h.2.1 _ (by decide), h.2.2.2 _ (by decide)⟩

/-- Claim C9.  When the match list is empty — in particular when either
experiment returns zero records — `main` takes the graceful early return:
the script-emission and summary step is never invoked, no scripts are
produced, and the outcome is the informational no-matches message. -/
theorem C9_empty_match_graceful (resolve : String → Except String (List FileEntry))
    (ssp_results hist_results : List RawRecord)
    (h : ssp_results = [] ∨ hist_results = [] ∨
      find_matching_variants ssp_results hist_results = []) :
    runMain resolve ssp_results hist_results = RunOutcome.noMatches := by
  have hempty : find_matching_variants ssp_results hist_results = [] := by
    rcases h with rfl | rfl | h
    · exact find_matching_variants_nil_left _
    · exact find_matching_variants_nil_right _
    · exact h
  simp [runMain, hempty]

/-- Claim C9, witness: zero ssp585 records at a concrete input. -/
theorem C9_witness :
    runMain errResolve [] [rawRec "M" "I" "v" "g" "d"] = RunOutcome.noMatches :=
  C9_empty_match_graceful errResolve [] [rawRec "M" "I" "v" "g" "d"] (Or.inl rfl)

/-- Claim C10.  For each matched model and each experiment: if resolving
that experiment fails, the corresponding script-path column of its summary
row is the empty string; and whenever a script-path column is non-empty it
names a script that was actually emitted and marked executable. -/
theorem C10_script_path_iff_written (resolve : String → Except String (List FileEntry))
    (output_dir : String) (matched : List MatchedModel) :
    ∀ (k : Nat) (mi : MatchedModel), matched[k]? = some mi →
      ∃ row : SummaryRow, (generate_wget_scripts resolve matched output_dir).2[k]? = some row ∧
        (∀ e, resolve mi.historical_dataset = Except.error e → row.historical_wget = "") ∧
        (∀ e, resolve mi.ssp585_dataset = Except.error e → row.ssp585_wget = "") ∧
        (row.historical_wget ≠ "" →
          ∃ sf ∈ (generate_wget_scripts resolve matched output_dir).1,
            sf.path = row.historical_wget ∧ sf.executable = true) ∧
        (row.ssp585_wget ≠ "" →
          ∃ sf ∈ (generate_wget_scripts resolve matched output_dir).1,
            sf.path = row.ssp585_wget ∧ sf.executable = true) := by
  intro k mi hk
  have hmem : mi ∈ matched := by
    obtain ⟨hlt, hget⟩ := List.getElem?_eq_some_iff.mp hk
    rw [← hget]
    exact List.getElem_mem hlt
  refine ⟨(processModel resolve output_dir mi).2, ?_, ?_, ?_, ?_, ?_⟩
  · rw [generate_snd_getElem?, hk]
    rfl
  · intro e he
    simp only [processModel, runExperiment_error he]
    rfl
  · intro e he
    simp only [processModel, runExperiment_error he]
    rfl
  · intro hne
    cases hres : resolve mi.historical_dataset with
    | error e =>
      exact absurd (by simp only [processModel, runExperiment_error hres]; rfl) hne
    | ok files =>
      refine ⟨{ path := (output_dir ++ "/" ++ mi.model ++ "_" ++ mi.variant ++ "/"
                    ++ "historical" ++ "_wget.sh"),
                model := mi.model, variant := mi.variant, experiment := "historical",
                dataset_id := mi.historical_dataset, wget_entries := wgetEntries files,
                executable := true }, ?_, ?_, rfl⟩
      · refine processModel_scripts_sub resolve output_dir hmem ?_
        simp only [processModel, runExperiment_ok hres]
        exact List.mem_append_left _ (List.mem_cons_self _ _)
      · simp only [processModel, runExperiment_ok hres]
        rfl
  · intro hne
    cases hres : resolve mi.ssp585_dataset with
    | error e =>
      exact absurd (by simp only [processModel, runExperiment_error hres]; rfl) hne
    | ok files =>
      refine ⟨{ path := (output_dir ++ "/" ++ mi.model ++ "_" ++ mi.variant ++ "/"
                    ++ "ssp585" ++ "_wget.sh"),
                model := mi.model, variant := mi.variant, experiment := "ssp585",
                dataset_id := mi.ssp585_dataset, wget_entries := wgetEntries files,
                executable := true }, ?_, ?_, rfl⟩
      · refine processModel_scripts_sub resolve output_dir hmem ?_
        simp only [processModel, runExperiment_ok hres]
        exact List.mem_append_right _ (List.mem_cons_self _ _)
      · simp only [processModel, runExperiment_ok hres]
        rfl

/-- Claim C10, witness at a concrete input where the historical resolution
succeeds (okResolve resolves everything). -/
theorem C10_witness :
    ∃ row : SummaryRow, (generate_wget_scripts okResolve
        [⟨"M", "I", "v", "g", "dh", "ds"⟩] "./o").2[0]? = some row ∧
      (∀ e, okResolve (⟨"M", "I", "v", "g", "dh", "ds"⟩ : MatchedModel).historical_dataset
          = Except.error e → row.historical_wget = "") ∧
      (∀ e, okResolve (⟨"M", "I", "v", "g", "dh", "ds"⟩ : MatchedModel).ssp585_dataset
          = Except.error e → row.ssp585_wget = "") ∧
      (row.historical_wget ≠ "" →
        ∃ sf ∈ (generate_wget_scripts okResolve
            [⟨"M", "I", "v", "g", "dh", "ds"⟩] "./o").1,
          sf.path = row.historical_wget ∧ sf.executable = true) ∧
      (row.ssp585_wget ≠ "" →
        ∃ sf ∈ (generate_wget_scripts okResolve
            [⟨"M", "I", "v", "g", "dh", "ds"⟩] "./o").1,
          sf.path = row.ssp585_wget ∧ sf.executable = true) :=
  C10_script_path_iff_written okResolve "./o"
    [⟨"M", "I", "v", "g", "dh", "ds"⟩] 0 ⟨"M", "I", "v", "g", "dh", "ds"⟩ rfl

end Cmip6
